import Mathlib

/-!
Shallow embedding of the `ras-chat` service core (`src/main.rs`):
the ring-buffer message log (`Queue`), its `push` / `get_all` / `get_from`
operations, and the request handlers `set_message`, `get_messages`,
`get_messages_from` with their bitmask access gate.

Modelling conventions:
* Rust `usize` values are `Nat`; `message.len()` (a byte length) is
  `String.utf8ByteSize`.
* `Queue::push` takes `&mut self`; it is embedded as a pure function
  returning the `Result` together with the updated state.
* The two scan loops (`loop { ... }` in `get_all` / `get_from`) are embedded
  with explicit fuel: `none` means the loop has not reached its `break`
  within the given number of iterations.  The loops accumulate the ordered
  sequence of emitted `(key, value)` slots; `renderMessages` reproduces the
  serialisation the Rust code builds inline (`"[\r\n"`, entries
  `"key":"data"`, separator `",\r\n"`, closing `"]"`), whose separators are
  appended exactly between consecutive emitted entries.
* Rust `Vec` indexing `self.messages[index]` is `List.getD`; every index the
  scans and `push` use is `< messages.length` whenever the capacity is
  positive, matching Rust's in-bounds accesses.
* The handlers' external collaborators are parameters: token validation
  (`check_and_get_access_token`) is a function `String → Except Unit Token`,
  the millisecond clock is a `Nat` argument, and the parsed JSON body is an
  `Option QueryMap` (`none` for an absent or unparsable body, both of which
  the source answers with `BadRequest`).  `query["token"]` is Rust `HashMap`
  indexing, which panics when the key is absent: that outcome is the
  distinguished constructor `HandlerOutcome.panicked`.  The surrounding
  `Mutex` is sequentialised away (lock acquisition always succeeds in this
  single-threaded model; the `InternalServerError` arm for a poisoned lock
  is kept in the outcome type for completeness but never produced).
-/

/-- A stored chat message: `struct Message { key: String, data: String }`. -/
structure Message where
  key : String
  data : String
deriving DecidableEq, Inhabited

/-- The ring-buffer log:
`struct Queue { messages: Vec<Message>, output_capacity: usize,
max_message_len: usize, end_index: usize }`. -/
structure Queue where
  messages : List Message
  output_capacity : Nat
  max_message_len : Nat
  end_index : Nat
deriving DecidableEq

namespace Queue

/-- `Queue::new(len, max_message_len)`: `len` placeholder slots
(empty key, empty data), `output_capacity = len * max_message_len`,
`end_index = 0`. -/
def new (len max_message_len : Nat) : Queue :=
  { messages := List.replicate len ⟨"", ""⟩
    output_capacity := len * max_message_len
    max_message_len := max_message_len
    end_index := 0 }

/-- `Queue::push(key, message)`: reject when
`message.len() >= self.max_message_len`; otherwise advance `end_index`
(wrapping to `0` when it reaches `messages.len()`) and overwrite the slot at
the new `end_index`. -/
def push (q : Queue) (key message : String) : Except Unit Unit × Queue :=
  if message.utf8ByteSize ≥ q.max_message_len then
    (Except.error (), q)
  else
    let e := q.end_index + 1
    let e := if e ≥ q.messages.length then 0 else e
    (Except.ok (), { q with end_index := e, messages := q.messages.set e ⟨key, message⟩ })

/-- The `loop` body of `Queue::get_all`: emit the slot at `index`, advance
`index` modulo the slot count, `break` exactly when the new index equals
`end_index + 1` (the Rust comparison has no `% len`).  Fuel-indexed:
`none` = the `break` was not reached within `fuel` iterations. -/
def getAllGo (q : Queue) : Nat → Nat → List Message → Option (List Message)
  | 0, _, _ => none
  | fuel + 1, index, acc =>
    let acc := acc ++ [q.messages.getD index ⟨"", ""⟩]
    let index := (index + 1) % q.messages.length
    if index = q.end_index + 1 then some acc
    else q.getAllGo fuel index acc

/-- `Queue::get_all` as the ordered sequence of emitted slots: the scan
starts at `(end_index + 1) % messages.len()`. -/
def get_all (q : Queue) (fuel : Nat) : Option (List Message) :=
  q.getAllGo fuel ((q.end_index + 1) % q.messages.length) []

/-- The `loop` body of `Queue::get_from`: emit the slot at `index` only when
`start_write` is set; advance; `break` when the new index equals
`end_index + 1`; otherwise set `start_write` when the marker `key` equals
the key of the slot at the *new* index. -/
def getFromGo (q : Queue) (key : String) :
    Nat → Nat → Bool → List Message → Option (List Message)
  | 0, _, _, _ => none
  | fuel + 1, index, start_write, acc =>
    let acc := if start_write then acc ++ [q.messages.getD index ⟨"", ""⟩] else acc
    let index := (index + 1) % q.messages.length
    if index = q.end_index + 1 then some acc
    else
      let start_write :=
        if key = (q.messages.getD index ⟨"", ""⟩).key then true else start_write
      q.getFromGo key fuel index start_write acc

/-- `Queue::get_from` as the ordered sequence of emitted slots. -/
def get_from (q : Queue) (key : String) (fuel : Nat) : Option (List Message) :=
  q.getFromGo key fuel ((q.end_index + 1) % q.messages.length) false []

/-- Fold `push` over a list of `(key, value)` pairs, keeping only the state:
the queue after a sequence of append requests. -/
def pushAll (q : Queue) (msgs : List (String × String)) : Queue :=
  msgs.foldl (fun q p => (q.push p.1 p.2).2) q

end Queue

/-- The serialisation both scans build inline in Rust:
`"[\r\n"` ++ entries `"key":"data"` separated by `",\r\n"` ++ `"]"`. -/
def renderMessages (msgs : List Message) : String :=
  "[\r\n" ++
    String.intercalate ",\r\n"
      (msgs.map (fun m => "\"" ++ m.key ++ "\":\"" ++ m.data ++ "\"")) ++ "]"

/-- The claims an already-validated bearer token carries, as the handlers
consume them (`token.user_name`, `token.user_role: u8`). -/
structure Token where
  user_name : String
  user_role : Nat
deriving DecidableEq

/-- The access gate the three gated handlers apply:
access is granted iff `right_role & token.user_role != 0`
(the handlers return `Forbidden` exactly when the conjunction is zero). -/
def authorize (right_role user_role : Nat) : Bool :=
  !(right_role &&& user_role == 0)

/-- The parsed request body: serde's
`HashMap<String, Option<String>>`, embedded as an association list. -/
def QueryMap : Type := List (String × Option String)

/-- Rust `query[k]` (`HashMap` indexing): `none` models the panic raised
when key `k` is absent; `some v` is the stored `Option<String>` value. -/
def getField (m : QueryMap) (k : String) : Option (Option String) :=
  (m.find? (fun p => p.1 == k)).map (fun p => p.2)

/-- A handler's `RasResult::Sync(status, body)` outcome.  `panicked` marks
the `HashMap`-indexing panic on a missing field; `noReturn` marks a queue
scan that did not reach its `break` within the supplied fuel;
`internalServerError` (a poisoned lock) is never produced by this
sequential model. -/
inductive HandlerOutcome where
  | ok (body : Option String)
  | badRequest
  | authenticationTimeout
  | forbidden
  | internalServerError
  | panicked
  | noReturn
deriving DecidableEq

/-- Handler `set_message`: parse the body (`none` → `BadRequest`), read
`query["token"]` (absent key → panic, JSON `null` → `BadRequest`), validate
the token externally, check the role gate, build the storage key from the
user name and the millisecond clock, read `query["message"]`, and push. -/
def set_message (right_role : Nat) (check : String → Except Unit Token)
    (now_millis : Nat) (query : Option QueryMap) (q : Queue) :
    HandlerOutcome × Queue :=
  match query with
  | none => (.badRequest, q)
  | some qu =>
    match getField qu "token" with
    | none => (.panicked, q)
    | some none => (.badRequest, q)
    | some (some tokenStr) =>
      match check tokenStr with
      | .error _ => (.authenticationTimeout, q)
      | .ok token =>
        if right_role &&& token.user_role = 0 then (.forbidden, q)
        else
          let key := token.user_name ++ toString now_millis
          match getField qu "message" with
          | none => (.panicked, q)
          | some none => (.badRequest, q)
          | some (some message) =>
            match q.push key message with
            | (.ok _, q2) => (.ok none, q2)
            | (.error _, _) => (.badRequest, q)

/-- Handler `get_messages`: same body/token/role steps, then serialise
`queue.get_all()` (the scan runs under the lock; `fuel` bounds the loop). -/
def get_messages (right_role : Nat) (check : String → Except Unit Token)
    (query : Option QueryMap) (q : Queue) (fuel : Nat) :
    HandlerOutcome × Queue :=
  match query with
  | none => (.badRequest, q)
  | some qu =>
    match getField qu "token" with
    | none => (.panicked, q)
    | some none => (.badRequest, q)
    | some (some tokenStr) =>
      match check tokenStr with
      | .error _ => (.authenticationTimeout, q)
      | .ok token =>
        if right_role &&& token.user_role = 0 then (.forbidden, q)
        else
          match q.get_all fuel with
          | some msgs => (.ok (some (renderMessages msgs)), q)
          | none => (.noReturn, q)

/-- Handler `get_messages_from`: as `get_messages`, but additionally reads
`query["start_key"]` (absent key → panic, JSON `null` → `BadRequest`) and
serialises `queue.get_from(start_key)`. -/
def get_messages_from (right_role : Nat) (check : String → Except Unit Token)
    (query : Option QueryMap) (q : Queue) (fuel : Nat) :
    HandlerOutcome × Queue :=
  match query with
  | none => (.badRequest, q)
  | some qu =>
    match getField qu "token" with
    | none => (.panicked, q)
    | some none => (.badRequest, q)
    | some (some tokenStr) =>
      match check tokenStr with
      | .error _ => (.authenticationTimeout, q)
      | .ok token =>
        if right_role &&& token.user_role = 0 then (.forbidden, q)
        else
          match getField qu "start_key" with
          | none => (.panicked, q)
          | some none => (.badRequest, q)
          | some (some startKey) =>
            match q.get_from startKey fuel with
            | some msgs => (.ok (some (renderMessages msgs)), q)
            | none => (.noReturn, q)

/-- Write a run of messages into consecutive slots starting at index `i`:
the cumulative effect of the slot overwrites performed by consecutive
`push`es that do not wrap. -/
def writeFrom : List Message → Nat → List Message → List Message
  | l, _, [] => l
  | l, i, m :: ms => writeFrom (l.set i m) (i + 1) ms

/-! ## Sample states -/

/-- Capacity 3 after one append: `end_index = 1`, `end_index + 1 < 3`, so
both scans terminate. -/
def sampleQ1 : Queue := ((Queue.new 3 5).push "a" "x").2

/-- Capacity 2 after one append: `end_index = 1 = capacity - 1`, the state
in which the scan loops' exit test can never fire. -/
def sampleStuck : Queue := ((Queue.new 2 5).push "k" "m").2

/-- Capacity 5 after appending keys `k1..k5` (no wraparound of genuine
data yet: `k5` landed on slot 0, `end_index = 0`). -/
def sampleQ5 : Queue :=
  (Queue.new 5 10).pushAll
    [("k1", "m1"), ("k2", "m2"), ("k3", "m3"), ("k4", "m4"), ("k5", "m5")]

/-! ## Scan-loop lemmas

The scan index of `get_all` / `get_from` is always reduced modulo
`messages.length`, but the exit test compares it against `end_index + 1`
without a reduction.  So the loop exits exactly when `end_index + 1` is
itself a valid index, i.e. when `end_index + 1 < messages.length`; when
`end_index = messages.length - 1` the exit value is unreachable and the
loop never breaks. -/

/-- `get_all`'s loop never exits when `end_index + 1` equals the slot
count: every scan index is `< messages.length`, the exit value is not. -/
theorem Queue.getAllGo_stuck (q : Queue)
    (h : q.end_index + 1 = q.messages.length) :
    ∀ fuel index acc, index < q.messages.length →
      q.getAllGo fuel index acc = none := by
  intro fuel
  induction fuel with
  | zero => intro index acc _; rfl
  | succ n ih =>
    intro index acc hidx
    have hpos : 0 < q.messages.length := lt_of_le_of_lt (Nat.zero_le index) hidx
    have hlt : (index + 1) % q.messages.length < q.messages.length :=
      Nat.mod_lt _ hpos
    have hne : ¬ ((index + 1) % q.messages.length = q.end_index + 1) := by omega
    simp only [Queue.getAllGo]
    rw [if_neg hne]
    exact ih _ _ hlt

/-- `get_from`'s loop never exits when `end_index + 1` equals the slot
count, for any marker key and any `start_write` state. -/
theorem Queue.getFromGo_stuck (q : Queue) (key : String)
    (h : q.end_index + 1 = q.messages.length) :
    ∀ fuel index sw acc, index < q.messages.length →
      q.getFromGo key fuel index sw acc = none := by
  intro fuel
  induction fuel with
  | zero => intro index sw acc _; rfl
  | succ n ih =>
    intro index sw acc hidx
    have hpos : 0 < q.messages.length := lt_of_le_of_lt (Nat.zero_le index) hidx
    have hlt : (index + 1) % q.messages.length < q.messages.length :=
      Nat.mod_lt _ hpos
    have hne : ¬ ((index + 1) % q.messages.length = q.end_index + 1) := by omega
    simp only [Queue.getFromGo]
    rw [if_neg hne]
    exact ih _ _ _ hlt

/-- When `end_index + 1 < messages.length`, `get_all`'s loop exits after
exactly the remaining number of steps `f` (where `index + f ≡ end_index + 1`
modulo the slot count and `f ≤ messages.length`), having emitted one slot
per step. -/
theorem Queue.getAllGo_exit (q : Queue)
    (hend : q.end_index + 1 < q.messages.length) :
    ∀ f index acc, 1 ≤ f → f ≤ q.messages.length → index < q.messages.length →
      (index + f) % q.messages.length = q.end_index + 1 →
      ∃ l, q.getAllGo f index acc = some l ∧ l.length = acc.length + f := by
  intro f
  induction f with
  | zero => intro index acc h1 _ _ _; exact absurd h1 (by decide)
  | succ n ih =>
    intro index acc _ hf hidx hmod
    have hpos : 0 < q.messages.length := by omega
    have hidx' : (index + 1) % q.messages.length < q.messages.length :=
      Nat.mod_lt _ hpos
    cases n with
    | zero =>
      have hbr : (index + 1) % q.messages.length = q.end_index + 1 := by
        simpa using hmod
      refine ⟨acc ++ [q.messages.getD index ⟨"", ""⟩], ?_, by simp⟩
      simp only [Queue.getAllGo]
      rw [if_pos hbr]
    | succ m =>
      have hbr : ¬ ((index + 1) % q.messages.length = q.end_index + 1) := by
        intro hcon
        have h1 : (index + 1) % q.messages.length
            = (index + (m + 2)) % q.messages.length := by rw [hcon, hmod]
        have h2 : (index + 1) ≡ (index + (m + 2)) [MOD q.messages.length] := h1
        have h3 : q.messages.length ∣ (index + (m + 2)) - (index + 1) :=
          (Nat.modEq_iff_dvd' (by omega)).mp h2
        have h4 : (index + (m + 2)) - (index + 1) = m + 1 := by omega
        rw [h4] at h3
        have h5 := Nat.le_of_dvd (by omega) h3
        omega
      simp only [Queue.getAllGo]
      rw [if_neg hbr]
      have hmod' : ((index + 1) % q.messages.length + (m + 1)) % q.messages.length
          = q.end_index + 1 := by
        rw [Nat.mod_add_mod]
        have h6 : index + 1 + (m + 1) = index + (m + 2) := by omega
        rw [h6]
        exact hmod
      obtain ⟨l, hl, hlen⟩ := ih ((index + 1) % q.messages.length)
        (acc ++ [q.messages.getD index ⟨"", ""⟩]) (by omega) (by omega) hidx' hmod'
      refine ⟨l, hl, ?_⟩
      simp at hlen
      omega

/-- When `end_index + 1 < messages.length`, `get_all` with fuel
`messages.length` returns a snapshot of exactly `messages.length` entries. -/
theorem Queue.get_all_total (q : Queue)
    (hend : q.end_index + 1 < q.messages.length) :
    ∃ l, q.get_all q.messages.length = some l ∧ l.length = q.messages.length := by
  have hpos : 0 < q.messages.length := by omega
  have hidx : (q.end_index + 1) % q.messages.length = q.end_index + 1 :=
    Nat.mod_eq_of_lt hend
  have hmod : (q.end_index + 1 + q.messages.length) % q.messages.length
      = q.end_index + 1 := by
    rw [Nat.add_mod_right]
    exact hidx
  obtain ⟨l, hl, hlen⟩ := Queue.getAllGo_exit q hend q.messages.length
    (q.end_index + 1) [] hpos (Nat.le_refl _) hend hmod
  refine ⟨l, ?_, by simpa using hlen⟩
  unfold Queue.get_all
  rw [hidx]
  exact hl

/-- When `end_index + 1 < messages.length`, `get_from`'s loop exits for any
marker, `start_write` state and accumulator. -/
theorem Queue.getFromGo_exit (q : Queue) (key : String)
    (hend : q.end_index + 1 < q.messages.length) :
    ∀ f index sw acc, 1 ≤ f → f ≤ q.messages.length → index < q.messages.length →
      (index + f) % q.messages.length = q.end_index + 1 →
      ∃ l, q.getFromGo key f index sw acc = some l := by
  intro f
  induction f with
  | zero => intro index sw acc h1 _ _ _; exact absurd h1 (by decide)
  | succ n ih =>
    intro index sw acc _ hf hidx hmod
    have hpos : 0 < q.messages.length := by omega
    have hidx' : (index + 1) % q.messages.length < q.messages.length :=
      Nat.mod_lt _ hpos
    cases n with
    | zero =>
      have hbr : (index + 1) % q.messages.length = q.end_index + 1 := by
        simpa using hmod
      refine ⟨if sw then acc ++ [q.messages.getD index ⟨"", ""⟩] else acc, ?_⟩
      simp only [Queue.getFromGo]
      rw [if_pos hbr]
    | succ m =>
      have hbr : ¬ ((index + 1) % q.messages.length = q.end_index + 1) := by
        intro hcon
        have h1 : (index + 1) % q.messages.length
            = (index + (m + 2)) % q.messages.length := by rw [hcon, hmod]
        have h2 : (index + 1) ≡ (index + (m + 2)) [MOD q.messages.length] := h1
        have h3 : q.messages.length ∣ (index + (m + 2)) - (index + 1) :=
          (Nat.modEq_iff_dvd' (by omega)).mp h2
        have h4 : (index + (m + 2)) - (index + 1) = m + 1 := by omega
        rw [h4] at h3
        have h5 := Nat.le_of_dvd (by omega) h3
        omega
      simp only [Queue.getFromGo]
      rw [if_neg hbr]
      have hmod' : ((index + 1) % q.messages.length + (m + 1)) % q.messages.length
          = q.end_index + 1 := by
        rw [Nat.mod_add_mod]
        have h6 : index + 1 + (m + 1) = index + (m + 2) := by omega
        rw [h6]
        exact hmod
      exact ih ((index + 1) % q.messages.length) _ _ (by omega) (by omega) hidx' hmod'

/-- If no slot's key equals the marker, `start_write` is never set, so
`get_from`'s loop either runs out of fuel or exits having emitted nothing. -/
theorem Queue.getFromGo_no_match (q : Queue) (key : String)
    (hkey : ∀ m ∈ q.messages, m.key ≠ key) :
    ∀ fuel index, index < q.messages.length →
      q.getFromGo key fuel index false [] = none ∨
      q.getFromGo key fuel index false [] = some [] := by
  intro fuel
  induction fuel with
  | zero => intro index _; left; rfl
  | succ n ih =>
    intro index hidx
    have hpos : 0 < q.messages.length := lt_of_le_of_lt (Nat.zero_le index) hidx
    have hidx' : (index + 1) % q.messages.length < q.messages.length :=
      Nat.mod_lt _ hpos
    simp only [Queue.getFromGo]
    by_cases hbr : (index + 1) % q.messages.length = q.end_index + 1
    · right
      rw [if_pos hbr]
      simp
    · have hmem : q.messages.getD ((index + 1) % q.messages.length) ⟨"", ""⟩
          ∈ q.messages := by
        rw [List.getD_eq_getElem q.messages ⟨"", ""⟩ hidx']
        exact List.getElem_mem hidx'
      have hne : ¬ (key
          = (q.messages.getD ((index + 1) % q.messages.length) ⟨"", ""⟩).key) := by
        intro hcon
        exact hkey _ hmem hcon.symm
      rw [if_neg hbr, if_neg hne]
      simpa using ih _ hidx'

/-- When `end_index + 1 < messages.length`, `get_from` with fuel
`messages.length` returns some snapshot for every marker key. -/
theorem Queue.get_from_total (q : Queue) (key : String)
    (hend : q.end_index + 1 < q.messages.length) :
    ∃ l, q.get_from key q.messages.length = some l := by
  have hpos : 0 < q.messages.length := by omega
  have hidx : (q.end_index + 1) % q.messages.length = q.end_index + 1 :=
    Nat.mod_eq_of_lt hend
  have hmod : (q.end_index + 1 + q.messages.length) % q.messages.length
      = q.end_index + 1 := by
    rw [Nat.add_mod_right]
    exact hidx
  obtain ⟨l, hl⟩ := Queue.getFromGo_exit q key hend q.messages.length
    (q.end_index + 1) false [] hpos (Nat.le_refl _) hend hmod
  refine ⟨l, ?_⟩
  unfold Queue.get_from
  rw [hidx]
  exact hl

/-! ## Append lemmas -/

/-- Setting the element just after a prefix replaces the head of the tail. -/
theorem set_len_append (pre : List Message) (a m : Message) (l : List Message) :
    (pre ++ a :: l).set pre.length m = pre ++ m :: l := by
  induction pre with
  | nil => rfl
  | cons x xs ih =>
    show x :: ((xs ++ a :: l).set xs.length m) = x :: (xs ++ m :: l)
    rw [ih]

/-- `writeFrom` starting right after a prefix replaces an initial segment of
the tail. -/
theorem writeFrom_append :
    ∀ (ms pre l : List Message), ms.length ≤ l.length →
      writeFrom (pre ++ l) pre.length ms = pre ++ ms ++ l.drop ms.length := by
  intro ms
  induction ms with
  | nil => intro pre l _; simp [writeFrom]
  | cons m ms ih =>
    intro pre l hle
    cases l with
    | nil => exact absurd hle (by simp)
    | cons a l' =>
      show writeFrom ((pre ++ a :: l').set pre.length m) (pre.length + 1) ms
          = pre ++ (m :: ms) ++ (a :: l').drop (m :: ms).length
      rw [set_len_append]
      have h1 : pre ++ m :: l' = (pre ++ [m]) ++ l' := by simp
      have h2 : pre.length + 1 = (pre ++ [m]).length := by simp
      rw [h1, h2, ih (pre ++ [m]) l' (by simpa using hle)]
      simp

/-- `writeFrom` into a placeholder buffer at index 1: slot 0 keeps its
placeholder, the messages fill slots `1 .. ms.length`, the remaining slots
keep their placeholders. -/
theorem writeFrom_replicate_one (C : Nat) (ms : List Message)
    (hC : ms.length + 1 ≤ C) :
    writeFrom (List.replicate C ⟨"", ""⟩) 1 ms
      = ⟨"", ""⟩ :: (ms ++ List.replicate (C - 1 - ms.length) ⟨"", ""⟩) := by
  have hrep : List.replicate C (⟨"", ""⟩ : Message)
      = [⟨"", ""⟩] ++ List.replicate (C - 1) ⟨"", ""⟩ := by
    cases C with
    | zero => exact absurd hC (by omega)
    | succ n => simp [List.replicate_succ]
  have h1 : (1 : Nat) = ([⟨"", ""⟩] : List Message).length := rfl
  rw [hrep, h1, writeFrom_append _ _ _ (by simp only [List.length_replicate]; omega)]
  simp [List.drop_replicate]

/-- A run of `push`es that stays strictly below the wraparound point
advances `end_index` by the number of messages and writes them into the
consecutive slots starting at `end_index + 1`. -/
theorem Queue.pushAll_writeFrom :
    ∀ (msgs : List (String × String)) (q : Queue),
      q.end_index + msgs.length < q.messages.length →
      (∀ p ∈ msgs, p.2.utf8ByteSize < q.max_message_len) →
      (q.pushAll msgs).end_index = q.end_index + msgs.length ∧
      (q.pushAll msgs).messages
        = writeFrom q.messages (q.end_index + 1)
            (msgs.map fun p => ⟨p.1, p.2⟩) := by
  intro msgs
  induction msgs with
  | nil =>
    intro q _ _
    constructor
    · simp [Queue.pushAll]
    · simp [Queue.pushAll, writeFrom]
  | cons p ps ih =>
    intro q hlen hok
    have hp : p.2.utf8ByteSize < q.max_message_len := hok p (by simp)
    have hnotge : ¬ (p.2.utf8ByteSize ≥ q.max_message_len) := by omega
    have hlen' : q.end_index + (ps.length + 1) < q.messages.length := by
      simpa using hlen
    have hwrap : ¬ (q.end_index + 1 ≥ q.messages.length) := by omega
    have hpush : (q.push p.1 p.2).2
        = { q with end_index := q.end_index + 1,
                   messages := q.messages.set (q.end_index + 1) ⟨p.1, p.2⟩ } := by
      simp only [Queue.push]
      rw [if_neg hnotge, if_neg hwrap]
    have hstep : Queue.pushAll q (p :: ps)
        = Queue.pushAll ((q.push p.1 p.2).2) ps := rfl
    obtain ⟨ih1, ih2⟩ := ih ((q.push p.1 p.2).2)
      (by
        rw [hpush]
        show q.end_index + 1 + ps.length
            < (q.messages.set (q.end_index + 1) ⟨p.1, p.2⟩).length
        rw [List.length_set]
        omega)
      (by intro p' hp'; rw [hpush]; exact hok p' (by simp [hp']))
    constructor
    · rw [hstep, ih1, hpush]
      simp
      omega
    · rw [hstep, ih2, hpush]
      simp [writeFrom]

/-! ## Claims -/

/-- C1: `get_all` does NOT return exactly `C` entries after every sequence
of successful appends: whenever `write_cursor = C - 1` (e.g. capacity 2
after one append, or any capacity-1 queue) the scan loop's exit test
`index == end_index + 1` compares the mod-`C` scan index with the
un-reduced value `C`, so the loop never breaks and `get_all` never returns
(first conjunct: no amount of fuel finishes the scan).  In the remaining
states (`write_cursor + 1 < C`) the claim's behaviour does hold: the scan
finishes in exactly `C` steps and returns `C` entries (second conjunct),
in insertion order starting at `(write_cursor + 1) mod C` — illustrated
concretely by the third conjunct (capacity 3, one append: two placeholders
oldest-first, then the appended message, newest last). -/
theorem c1_snapshot_all_entries :
    (∀ fuel, sampleStuck.get_all fuel = none)
    ∧ (∀ q : Queue, q.end_index + 1 < q.messages.length →
        ∃ l, q.get_all q.messages.length = some l ∧ l.length = q.messages.length)
    ∧ sampleQ1.get_all 3 = some [⟨"", ""⟩, ⟨"", ""⟩, ⟨"a", "x"⟩] := by
  refine ⟨?_, ?_, by decide⟩
  · intro fuel
    exact Queue.getAllGo_stuck sampleStuck (by decide) fuel _ _ (by decide)
  · intro q h
    exact Queue.get_all_total q h

/-- C1 witness: a concrete state (`sampleQ1`, capacity 3) satisfying the
hypothesis `end_index + 1 < messages.length`, where `get_all` with fuel 3
indeed returns 3 entries. -/
theorem c1_snapshot_all_entries_witness :
    ∃ l, sampleQ1.get_all sampleQ1.messages.length = some l
      ∧ l.length = sampleQ1.messages.length :=
  c1_snapshot_all_entries.2.1 sampleQ1 (by decide)

/-- C2: the scans do NOT terminate on every reachable state: on a
capacity-1 queue (where `end_index` is always `0 = C - 1`) both `get_all`
and `get_from` loop forever — no fuel reaches the `break` (first
conjunct).  On states with `write_cursor + 1 < C` both scans do complete
within `C` steps (second conjunct). -/
theorem c2_scan_bounded :
    (∀ fuel, (Queue.new 1 5).get_all fuel = none
      ∧ (Queue.new 1 5).get_from "a" fuel = none)
    ∧ (∀ (q : Queue) (key : String), q.end_index + 1 < q.messages.length →
        (∃ l, q.get_all q.messages.length = some l)
        ∧ (∃ l, q.get_from key q.messages.length = some l)) := by
  constructor
  · intro fuel
    constructor
    · exact Queue.getAllGo_stuck (Queue.new 1 5) (by decide) fuel _ _ (by decide)
    · exact Queue.getFromGo_stuck (Queue.new 1 5) "a" (by decide) fuel _ _ _ (by decide)
  · intro q key h
    exact ⟨(Queue.get_all_total q h).imp (fun _ hl => hl.1),
      Queue.get_from_total q key h⟩

/-- C2 witness: at the concrete state `sampleQ1` both scans return within
`messages.length` steps. -/
theorem c2_scan_bounded_witness :
    (∃ l, sampleQ1.get_all sampleQ1.messages.length = some l)
    ∧ (∃ l, sampleQ1.get_from "a" sampleQ1.messages.length = some l) :=
  c2_scan_bounded.2 sampleQ1 "a" (by decide)

/-- C3: the handlers DO panic on a payload missing a required field:
`query["token"]` / `query["message"]` / `query["start_key"]` are Rust
`HashMap` indexing, which panics when the key is absent (serde only maps a
field present with JSON `null` to `None`, which is what the `BadRequest`
arm catches).  Concretely: body `{}` panics all three handlers at the
`token` lookup, and a body holding only a valid `token` panics
`set_message` at the `message` lookup and `get_messages_from` at the
`start_key` lookup. -/
theorem c3_missing_field_panics :
    set_message 1 (fun _ => Except.error ()) 0 (some []) (Queue.new 2 5)
      = (.panicked, Queue.new 2 5)
    ∧ get_messages 1 (fun _ => Except.error ()) (some []) (Queue.new 2 5) 2
      = (.panicked, Queue.new 2 5)
    ∧ get_messages_from 1 (fun _ => Except.ok ⟨"u", 3⟩)
        (some [("token", some "t")]) (Queue.new 2 5) 2
      = (.panicked, Queue.new 2 5)
    ∧ set_message 1 (fun _ => Except.ok ⟨"u", 3⟩) 0
        (some [("token", some "t")]) (Queue.new 2 5)
      = (.panicked, Queue.new 2 5) := by decide

/-- C4: the marker scan is inclusive of the matching slot, except that the
single oldest slot is never compared against the marker: after appending
`k1..k5` into a fresh capacity-5 buffer, `get_from k3` yields
`[k3, k4, k5]` in order, while `get_from k1` yields the empty sequence even
though `k1` is present in `get_all`'s snapshot. -/
theorem c4_marker_inclusive :
    sampleQ5.get_from "k3" 5 = some [⟨"k3", "m3"⟩, ⟨"k4", "m4"⟩, ⟨"k5", "m5"⟩]
    ∧ sampleQ5.get_from "k1" 5 = some []
    ∧ sampleQ5.get_all 5
      = some [⟨"k1", "m1"⟩, ⟨"k2", "m2"⟩, ⟨"k3", "m3"⟩, ⟨"k4", "m4"⟩,
          ⟨"k5", "m5"⟩] := by
  decide

/-- C5: `push` with `value.len() >= max_message_len` reports the failure
and returns the state unchanged (the length test precedes every mutation);
with `value.len() < max_message_len` it succeeds. -/
theorem c5_length_rejection (q : Queue) (key value : String) :
    (value.utf8ByteSize ≥ q.max_message_len →
      q.push key value = (Except.error (), q))
    ∧ (value.utf8ByteSize < q.max_message_len →
      (q.push key value).1 = Except.ok ()) := by
  constructor
  · intro h
    unfold Queue.push
    rw [if_pos h]
  · intro h
    unfold Queue.push
    rw [if_neg (by omega)]

/-- C5 witness: with `max_message_len = 3`, pushing a 3-byte value is
rejected without mutation and pushing a 2-byte value succeeds. -/
theorem c5_length_rejection_witness :
    (Queue.new 2 3).push "k" "abc" = (Except.error (), Queue.new 2 3)
    ∧ ((Queue.new 2 3).push "k" "ab").1 = Except.ok () :=
  ⟨(c5_length_rejection (Queue.new 2 3) "k" "abc").1 (by decide),
   (c5_length_rejection (Queue.new 2 3) "k" "ab").2 (by decide)⟩

/-- C6: every successful `push` advances `end_index` to
`(end_index + 1) mod C` and unconditionally overwrites the slot at the new
cursor (first conjunct, for any state with `end_index < C`); concretely,
appending 4 distinct messages into a capacity-3 buffer leaves a snapshot
without the 1st message, oldest survivor the 2nd (second conjunct). -/
theorem c6_append_overwrites (q : Queue) (key value : String)
    (hend : q.end_index < q.messages.length)
    (hval : value.utf8ByteSize < q.max_message_len) :
    ((q.push key value).1 = Except.ok ()
      ∧ (q.push key value).2.end_index = (q.end_index + 1) % q.messages.length
      ∧ (q.push key value).2.messages
        = q.messages.set ((q.end_index + 1) % q.messages.length) ⟨key, value⟩)
    ∧ (((Queue.new 3 10).pushAll
          [("k1", "m1"), ("k2", "m2"), ("k3", "m3"), ("k4", "m4")]).get_all 3
        = some [⟨"k2", "m2"⟩, ⟨"k3", "m3"⟩, ⟨"k4", "m4"⟩]
      ∧ (⟨"k1", "m1"⟩ : Message)
          ∉ [(⟨"k2", "m2"⟩ : Message), ⟨"k3", "m3"⟩, ⟨"k4", "m4"⟩]) := by
  have hmod : (if q.end_index + 1 ≥ q.messages.length then 0 else q.end_index + 1)
      = (q.end_index + 1) % q.messages.length := by
    by_cases h : q.end_index + 1 ≥ q.messages.length
    · rw [if_pos h]
      have h2 : q.end_index + 1 = q.messages.length := by omega
      rw [h2, Nat.mod_self]
    · rw [if_neg h, Nat.mod_eq_of_lt (by omega)]
  have hpush : q.push key value
      = (Except.ok (), { q with
          end_index := (q.end_index + 1) % q.messages.length,
          messages := q.messages.set ((q.end_index + 1) % q.messages.length)
            ⟨key, value⟩ }) := by
    unfold Queue.push
    rw [if_neg (by omega)]
    simp only [hmod]
  refine ⟨⟨?_, ?_, ?_⟩, by decide⟩
  · rw [hpush]
  · rw [hpush]
  · rw [hpush]

/-- C6 witness: a successful push on a concrete state (capacity 3, empty,
value below the bound) returns `Ok`. -/
theorem c6_append_overwrites_witness :
    ((Queue.new 3 10).push "k" "hi").1 = Except.ok () :=
  (c6_append_overwrites (Queue.new 3 10) "k" "hi" (by decide) (by decide)).1.1

/-- C7: access is granted iff `right_role &&& user_role ≠ 0`; a role
bitmask `0b0010` against requirement `0b0001` is denied and `0b0011` is
granted; and a denied `set_message` request answers `Forbidden` with the
queue untouched (the handler returns before any queue operation). -/
theorem c7_access_gate :
    (∀ required role : Nat, authorize required role = true ↔ required &&& role ≠ 0)
    ∧ authorize 1 2 = false
    ∧ authorize 1 3 = true
    ∧ (∀ (right_role now : Nat) (check : String → Except Unit Token)
        (qu : QueryMap) (q : Queue) (ts : String) (tok : Token),
        getField qu "token" = some (some ts) →
        check ts = Except.ok tok →
        authorize right_role tok.user_role = false →
        set_message right_role check now (some qu) q = (.forbidden, q)) := by
  refine ⟨?_, by decide, by decide, ?_⟩
  · intro required role
    unfold authorize
    constructor
    · intro h hcon
      rw [hcon] at h
      simp at h
    · intro h
      simp [h]
  · intro rr now check qu q ts tok hq hc ha
    have h0 : rr &&& tok.user_role = 0 := by
      unfold authorize at ha
      simpa using ha
    simp [set_message, hq, hc, h0]

/-- C7 witness: a token of role `0b0010` against requirement `0b0001` is
answered `Forbidden` and the queue is unchanged. -/
theorem c7_access_gate_witness :
    set_message 1 (fun _ => Except.ok ⟨"u", 2⟩) 0
        (some [("token", some "t")]) (Queue.new 2 5)
      = (.forbidden, Queue.new 2 5) :=
  c7_access_gate.2.2.2 1 0 (fun _ => Except.ok ⟨"u", 2⟩)
    [("token", some "t")] (Queue.new 2 5) "t" ⟨"u", 2⟩ (by decide) rfl (by decide)

/-- C8: a marker matching no slot never signals an error: the scan keeps
`start_write` false, so it either exits with the empty sequence — or, in
the states where the loop's exit test can never fire
(`write_cursor = C - 1`, third conjunct), it never returns at all, the
same defect as C1/C2.  The second conjunct shows the empty result on a
concrete terminating state. -/
theorem c8_unknown_marker :
    (∀ (q : Queue) (key : String), 0 < q.messages.length →
      (∀ m ∈ q.messages, m.key ≠ key) →
      ∀ fuel, q.get_from key fuel = none ∨ q.get_from key fuel = some [])
    ∧ sampleQ1.get_from "nonexistent" 3 = some []
    ∧ (∀ fuel, sampleStuck.get_from "nonexistent" fuel = none) := by
  refine ⟨?_, by decide, ?_⟩
  · intro q key hpos hkey fuel
    exact Queue.getFromGo_no_match q key hkey fuel _ (Nat.mod_lt _ hpos)
  · intro fuel
    exact Queue.getFromGo_stuck sampleStuck "nonexistent" (by decide) fuel _ _ _
      (by decide)

/-- C8 witness: the general no-match conjunct applied at a concrete
terminating state. -/
theorem c8_unknown_marker_witness :
    sampleQ1.get_from "zzz" 3 = none ∨ sampleQ1.get_from "zzz" 3 = some [] :=
  c8_unknown_marker.1 sampleQ1 "zzz" (by decide) (by decide) 3

/-- C9: with the cursor initialised to 0 and `push` advancing before
writing, `n < C` successful appends into a fresh capacity-`C` buffer fill
slots `1..n` in append order while slot 0 keeps its placeholder (it is
first overwritten only by the `C`-th append, which wraps the cursor to 0). -/
theorem c9_prefill_slots (C L : Nat) (msgs : List (String × String))
    (hC : 1 < C) (hn : msgs.length < C)
    (hok : ∀ p ∈ msgs, p.2.utf8ByteSize < L) :
    ((Queue.new C L).pushAll msgs).end_index = msgs.length
    ∧ ((Queue.new C L).pushAll msgs).messages
      = ⟨"", ""⟩ :: ((msgs.map fun p => ⟨p.1, p.2⟩)
          ++ List.replicate (C - 1 - msgs.length) ⟨"", ""⟩) := by
  have h1 : (Queue.new C L).end_index + msgs.length
      < (Queue.new C L).messages.length := by
    show 0 + msgs.length < (List.replicate C (⟨"", ""⟩ : Message)).length
    rw [List.length_replicate]
    omega
  obtain ⟨e1, e2⟩ := Queue.pushAll_writeFrom msgs (Queue.new C L) h1 hok
  constructor
  · rw [e1]
    show 0 + msgs.length = msgs.length
    omega
  · rw [e2]
    show writeFrom (List.replicate C ⟨"", ""⟩) (0 + 1)
        (msgs.map fun p => ⟨p.1, p.2⟩) = _
    rw [writeFrom_replicate_one C _ (by rw [List.length_map]; omega)]
    rw [List.length_map]

/-- C9 witness: capacity 3, one append: slot 1 holds the message, slots 0
and 2 keep their placeholders, `end_index = 1`. -/
theorem c9_prefill_slots_witness :
    ((Queue.new 3 5).pushAll [("a", "x")]).end_index = 1
    ∧ ((Queue.new 3 5).pushAll [("a", "x")]).messages
      = ⟨"", ""⟩ :: ([⟨"a", "x"⟩] ++ List.replicate 1 ⟨"", ""⟩) :=
  c9_prefill_slots 3 5 [("a", "x")] (by decide) (by decide) (by decide)

/-- C10: `new C L` establishes, and `push` preserves (on both its success
and failure paths), the structural invariant `messages.length = C ∧
end_index < C`; the scans take the queue by shared reference and are
embedded as pure functions of the state, so they cannot change it. -/
theorem c10_structural_invariant (C L : Nat) (q : Queue) (key value : String)
    (hC : 0 < C) (hlen : q.messages.length = C) (hend : q.end_index < C) :
    ((Queue.new C L).messages.length = C ∧ (Queue.new C L).end_index < C)
    ∧ ((q.push key value).2.messages.length = C
      ∧ (q.push key value).2.end_index < C) := by
  refine ⟨⟨by simp [Queue.new], by simpa [Queue.new] using hC⟩, ?_⟩
  unfold Queue.push
  by_cases h : value.utf8ByteSize ≥ q.max_message_len
  · rw [if_pos h]
    exact ⟨hlen, hend⟩
  · rw [if_neg h]
    constructor
    · show (q.messages.set
          (if q.end_index + 1 ≥ q.messages.length then 0 else q.end_index + 1)
          ⟨key, value⟩).length = C
      rw [List.length_set]
      exact hlen
    · show (if q.end_index + 1 ≥ q.messages.length then 0 else q.end_index + 1) < C
      by_cases hw : q.end_index + 1 ≥ q.messages.length
      · rw [if_pos hw]
        exact hC
      · rw [if_neg hw]
        omega

/-- C10 witness: the invariant instantiated at capacity 2 with a fresh
queue and a successful push. -/
theorem c10_structural_invariant_witness :
    (Queue.new 2 5).messages.length = 2 ∧ (Queue.new 2 5).end_index < 2 :=
  (c10_structural_invariant 2 5 (Queue.new 2 5) "k" "m" (by decide) (by decide)
    (by decide)).1
